import Mathlib

/-!
Verification of the Data Update Orchestration subsystem of the
pogo-mon-registry repository (`src/src/data/DataUpdateManager.js`).

The JavaScript class `DataUpdateManager` is shallowly embedded below.
Conventions of the embedding:

* JavaScript values that can be `null` become `Option`; a thrown JavaScript
  `Error` becomes the `.error` case of `Except`.
* The persistent store (`this.db`) is modelled by the data it holds: the
  `fact_data_updates` table is a `List AuditRecord` in insertion order
  (`created_at` ascending, so "ORDER BY created_at DESC LIMIT 1" is the last
  matching element).  Read-only lookups performed by the upsert loops are
  passed in as boolean-valued functions.
* Remote calls (`fetch`) are passed in as `Except FetchError _` values: the
  outcome the call would have produced.
* `generateUpdateId` produces fresh random identifiers; the embedding draws
  identifiers from a counter, keeping the one property that matters:
  distinctness.
* Wall-clock timestamps (`queuedAt`, `startTime`, durations, `dateId`) are
  irrelevant to every claim checked here and are dropped from the records.
-/

/-- Status values used by update tasks and audit rows
(`'pending' | 'in_progress' | 'completed' | 'failed'`). -/
inductive UpdateStatus where
  | pending
  | in_progress
  | completed
  | failed
deriving DecidableEq, Repr

/-- A failed remote fetch (network error or non-ok HTTP response). -/
structure FetchError where
  message : String
deriving DecidableEq, Repr

/-- A thrown JavaScript `Error` escaping an update routine. -/
structure UpdateError where
  message : String
deriving DecidableEq, Repr

/-- One entry of `this.updateSources` (constructor, lines 9-54). -/
structure Source where
  id : String
  name : String
  type : String
  repositoryUrl : String
  filePath : String
  checkInterval : Nat
  isActive : Bool
deriving DecidableEq, Repr

/-- `'pvpoke-gamemaster'` source descriptor from the constructor. -/
def pvpokeGamemaster : Source :=
  { id := "pvpoke-gamemaster", name := "PvPoke GameMaster", type := "gamemaster",
    repositoryUrl := "https://github.com/pvpoke/pvpoke.git",
    filePath := "src/data/gamemaster.json",
    checkInterval := 6 * 60 * 60 * 1000, isActive := true }

/-- `'pvpoke-rankings'` source descriptor from the constructor. -/
def pvpokeRankings : Source :=
  { id := "pvpoke-rankings", name := "PvPoke Rankings", type := "rankings",
    repositoryUrl := "https://github.com/pvpoke/pvpoke.git",
    filePath := "src/data/rankings/",
    checkInterval := 12 * 60 * 60 * 1000, isActive := true }

/-- `'pokemon-resources'` source descriptor from the constructor. -/
def pokemonResources : Source :=
  { id := "pokemon-resources", name := "Pokemon Resources", type := "tiers",
    repositoryUrl := "https://github.com/mgrann03/pokemon-resources.git",
    filePath := "pogo_pkm_tiers.json",
    checkInterval := 24 * 60 * 60 * 1000, isActive := true }

/-- `'dialgadex-data'` source descriptor from the constructor. -/
def dialgadexData : Source :=
  { id := "dialgadex-data", name := "Dialgadex Data", type := "tiers",
    repositoryUrl := "https://github.com/mgrann03/dialgadex.git",
    filePath := "scripts/",
    checkInterval := 24 * 60 * 60 * 1000, isActive := true }

/-- `this.updateSources` (constructor, lines 9-54). -/
def updateSources : List Source :=
  [pvpokeGamemaster, pvpokeRankings, pokemonResources, dialgadexData]

/-- `getUpdatePriority(sourceType)` (lines 484-492): the fixed
kind-to-weight object lookup with default `1`. -/
def getUpdatePriority (sourceType : String) : Nat :=
  if sourceType = "gamemaster" then 10
  else if sourceType = "rankings" then 8
  else if sourceType = "tiers" then 6
  else if sourceType = "moves" then 4
  else 1

/-- An `updateTask` object as built by `queueUpdate` (lines 230-238).
`queuedAt` is a wall-clock timestamp and is dropped. -/
structure UpdateTask where
  id : Nat
  sourceId : String
  source : Source
  status : UpdateStatus
  priority : Nat
deriving DecidableEq, Repr

/-- The task literal constructed by `queueUpdate(source)` (lines 231-238). -/
def mkUpdateTask (newId : Nat) (src : Source) : UpdateTask :=
  { id := newId, sourceId := src.id, source := src, status := .pending,
    priority := getUpdatePriority src.type }

/-! ## The update queue (`queueUpdate`, lines 240-241)

`queueUpdate` pushes the new task and re-sorts with the comparator
`(a, b) => b.priority - a.priority` (descending priority).
`Array.prototype.sort` is guaranteed stable (ECMAScript 2019), and a stable
sort's output is uniquely determined by the comparator and the input order,
so the embedding uses `List.insertionSort` — which is stable with respect to
a total preorder — with the corresponding total relation. -/

/-- The queue ordering: `taskGE a b` holds when `a` sorts no later than `b`
under the comparator `(a, b) => b.priority - a.priority`. -/
def taskGE (a b : UpdateTask) : Prop := b.priority ≤ a.priority

instance : DecidableRel taskGE :=
  fun a b => inferInstanceAs (Decidable (b.priority ≤ a.priority))

/-- `this.updateQueue.push(updateTask); this.updateQueue.sort(...)`
(lines 240-241). -/
def queuePush (q : List UpdateTask) (t : UpdateTask) : List UpdateTask :=
  List.insertionSort taskGE (q ++ [t])

/-- Closed form of `queuePush` on an already-sorted queue: the new task is
placed after every task of greater or equal priority and before every task
of strictly smaller priority (the stable position). -/
def stableInsert : List UpdateTask → UpdateTask → List UpdateTask
  | [], t => [t]
  | a :: q, t =>
      if t.priority ≤ a.priority then a :: stableInsert q t else t :: a :: q

/-- The dequeue loop of `processUpdateQueue` (lines 262-263): it repeatedly
`shift()`s the front of the queue, so the dequeue order is the queue order. -/
def drainOrder : List UpdateTask → List UpdateTask
  | [] => []
  | t :: rest => t :: drainOrder rest

/-! ## Change detection (`detectChanges`, `getCurrentGitHash`,
`getLastKnownHash`, lines 168-225) -/

/-- One row of `fact_data_updates`.  `fk_date_id` and
`processing_duration` are wall-clock data and are dropped. -/
structure AuditRecord where
  updateId : Nat
  sourceId : String
  updateType : String
  status : UpdateStatus
  recordsAdded : Nat
  recordsModified : Nat
  hash : Option String
  errorMessage : Option String
deriving DecidableEq, Repr

/-- `getCurrentGitHash(source)` (lines 194-205): fetches the latest commit
sha; on a fetch failure the catch block logs and returns `null`.  The error
never escapes. -/
def getCurrentGitHash (resolve : Except FetchError String) : Option String :=
  match resolve with
  | .ok sha => some sha
  | .error _ => none

/-- `getLastKnownHash(source)` (lines 210-225): the `git_commit_hash` of the
most recent `'completed'` row of `fact_data_updates` for the source
(`ORDER BY created_at DESC LIMIT 1`), or `null` if there is none or the row
stores a null hash (`result?.git_commit_hash || null`). -/
def getLastKnownHash (log : List AuditRecord) (sourceId : String) :
    Option String :=
  ((log.filter fun r =>
      r.sourceId == sourceId && r.status == UpdateStatus.completed).getLast?).bind
    (fun r => r.hash)

/-- `detectChanges(source)` (lines 168-189): compares the current remote
hash with the last known hash; `currentHash !== lastHash`.  Neither helper
can throw (each catches its own errors and returns `null`), so the outer
catch that would return `false` is never reached. -/
def detectChanges (resolve : Except FetchError String)
    (log : List AuditRecord) (src : Source) : Bool :=
  getCurrentGitHash resolve != getLastKnownHash log src.id

/-- The queue effect of `checkSourceForUpdates(source)` (lines 138-163):
when `detectChanges` reports a change, `queueUpdate(source)` builds a task
and inserts it into the queue; otherwise the queue is untouched. -/
def checkSourceQueueEffect (resolve : Except FetchError String)
    (log : List AuditRecord) (q : List UpdateTask) (src : Source)
    (newId : Nat) : List UpdateTask :=
  if detectChanges resolve log src then queuePush q (mkUpdateTask newId src)
  else q

/-! ## Kind-specific update routines (lines 344-453) -/

/-- A `gamemaster.json` pokemon entry, keyed by `(pokemon.dex,
pokemon.speciesId)` in the lookup of lines 360-363. -/
structure PokemonEntry where
  dex : Nat
  speciesId : String
deriving DecidableEq, Repr

/-- A `gamemaster.json` move entry, keyed by `move.name` (lines 378-381). -/
structure MoveEntry where
  name : String
deriving DecidableEq, Repr

/-- The parsed `gamemaster.json` payload. -/
structure GameMasterData where
  pokemon : List PokemonEntry
  moves : List MoveEntry
deriving DecidableEq, Repr

/-- An entry of a `rankings-<league>.json` payload. -/
structure RankingEntry where
  speciesId : String
deriving DecidableEq, Repr

/-- An entry of the `pogo_pkm_tiers.json` payload. -/
structure TierEntry where
  name : String
deriving DecidableEq, Repr

/-- The `{ recordsAdded, recordsModified }` result of an update routine. -/
structure UpdateCounts where
  recordsAdded : Nat
  recordsModified : Nat
deriving DecidableEq, Repr

/-- `loadJsonFile(filePath)` (lines 500-511): returns the parsed payload, or
`null` when the fetch fails or the response is not ok — the catch block
swallows the error. -/
def loadJsonFile {α : Type} (fetched : Except FetchError α) : Option α :=
  match fetched with
  | .ok v => some v
  | .error _ => none

/-- `updateGameMaster(updateTask)` (lines 344-393).  A `null` payload throws
`'Failed to load GameMaster data'`; otherwise every pokemon and move entry
is counted as added (no existing row) or modified (existing row).  The
row lookups (`db.get`) are the read-only store view `pokExists`/`movExists`;
`updatePokemonRecord`/`insertPokemonRecord` and the move variants are empty
stubs in the source (lines 612-627), so they contribute no effect. -/
def updateGameMaster (fetched : Except FetchError GameMasterData)
    (pokExists : PokemonEntry → Bool) (movExists : MoveEntry → Bool) :
    Except UpdateError UpdateCounts :=
  match loadJsonFile fetched with
  | none => .error { message := "Failed to load GameMaster data" }
  | some gm =>
      .ok { recordsAdded :=
              gm.pokemon.countP (fun p => !pokExists p) +
                gm.moves.countP (fun m => !movExists m),
            recordsModified :=
              gm.pokemon.countP (fun p => pokExists p) +
                gm.moves.countP (fun m => movExists m) }

/-- The three league codes iterated by `updateRankings` (line 404). -/
def leagues : List String := ["1500", "2500", "10000"]

/-- The six scenario names iterated by `updateRankings` (line 405). -/
def scenarios : List String :=
  ["leads", "closers", "switches", "chargers", "attackers", "overall"]

/-- The rankings file path built at line 409; it depends only on the league,
not on the scenario. -/
def rankingsPath (league : String) : String :=
  "pvpoke/src/data/rankings/all/overall/rankings-" ++ league ++ ".json"

/-- Modelled from the spec: `updateRankingRecord(ranking, league, scenario)`
is an empty stub in the source (lines 629-631); per the spec's upsert
contract it reports in `isNew` whether the entry was inserted rather than
updated.  The policy is the parameter `isNew`. -/
def updateRankingRecord (isNew : RankingEntry → Bool) (r : RankingEntry) :
    Bool :=
  isNew r

/-- `updateRankings(updateTask)` (lines 398-426): for every league and
scenario, load the rankings payload; a `null` payload (failed fetch) is
silently skipped by `if (rankingsData)`; entries are tallied as
added/modified.  No error is thrown on a failed fetch. -/
def updateRankings (fetchPath : String → Except FetchError (List RankingEntry))
    (isNew : RankingEntry → Bool) : Except UpdateError UpdateCounts :=
  .ok (leagues.foldl (fun acc league =>
        scenarios.foldl (fun acc _scenario =>
          match loadJsonFile (fetchPath (rankingsPath league)) with
          | none => acc
          | some rs =>
              { recordsAdded :=
                  acc.recordsAdded +
                    rs.countP (fun r => updateRankingRecord isNew r),
                recordsModified :=
                  acc.recordsModified +
                    rs.countP (fun r => !updateRankingRecord isNew r) }) acc)
      { recordsAdded := 0, recordsModified := 0 })

/-- Modelled from the spec: `updateTierRecord(tier)` is an empty stub in the
source (lines 633-635); per the spec's upsert contract it reports in `isNew`
whether the entry was inserted.  The policy is the parameter `isNew`. -/
def updateTierRecord (isNew : TierEntry → Bool) (t : TierEntry) : Bool :=
  isNew t

/-- `updateTiers(updateTask)` (lines 431-453): loads the tiers payload; a
`null` payload (failed fetch) is silently skipped by `if (tierData)` and the
routine returns zero counts.  No error is thrown on a failed fetch. -/
def updateTiers (fetched : Except FetchError (List TierEntry))
    (isNew : TierEntry → Bool) : Except UpdateError UpdateCounts :=
  match loadJsonFile fetched with
  | none => .ok { recordsAdded := 0, recordsModified := 0 }
  | some td =>
      .ok { recordsAdded := td.countP (fun t => updateTierRecord isNew t),
            recordsModified := td.countP (fun t => !updateTierRecord isNew t) }

/-- The external outcomes one task's processing can observe: the payload
fetches, the read-only store lookups, and the hash fetch that
`logUpdateComplete` performs. -/
structure TaskEnv where
  gmFetch : Except FetchError GameMasterData
  rankFetch : String → Except FetchError (List RankingEntry)
  tierFetch : Except FetchError (List TierEntry)
  pokExists : PokemonEntry → Bool
  movExists : MoveEntry → Bool
  rankingIsNew : RankingEntry → Bool
  tierIsNew : TierEntry → Bool
  completeHash : Except FetchError String

/-- The `switch (updateTask.source.type)` dispatch of `processUpdate`
(lines 300-312); an unknown type throws. -/
def runUpdateRoutine (env : TaskEnv) (task : UpdateTask) :
    Except UpdateError UpdateCounts :=
  if task.source.type = "gamemaster" then
    updateGameMaster env.gmFetch env.pokExists env.movExists
  else if task.source.type = "rankings" then
    updateRankings (fun p => env.rankFetch p) env.rankingIsNew
  else if task.source.type = "tiers" then
    updateTiers env.tierFetch env.tierIsNew
  else
    .error { message := "Unknown source type: " ++ task.source.type }

/-! ## Audit logging (lines 517-580) -/

/-- `logUpdateStart(updateTask)` (lines 517-534): INSERTs an `'in_progress'`
row keyed by a fresh update id. -/
def logUpdateStart (log : List AuditRecord) (task : UpdateTask) (uid : Nat) :
    List AuditRecord :=
  log ++ [{ updateId := uid, sourceId := task.sourceId,
            updateType := task.source.type, status := .in_progress,
            recordsAdded := 0, recordsModified := 0,
            hash := none, errorMessage := none }]

/-- `logUpdateComplete(updateTask)` (lines 536-563): re-fetches the current
git hash (`getCurrentGitHash`) and UPDATEs the task's row to `'completed'`
with the counts and that hash.  (The companion UPDATE of
`dim_data_sources.last_update_timestamp` is wall-clock data, dropped.) -/
def logUpdateComplete (log : List AuditRecord) (uid : Nat)
    (counts : UpdateCounts) (hashFetch : Except FetchError String) :
    List AuditRecord :=
  log.map fun r =>
    if r.updateId = uid then
      { r with status := .completed,
               recordsAdded := counts.recordsAdded,
               recordsModified := counts.recordsModified,
               hash := getCurrentGitHash hashFetch }
    else r

/-- `logUpdateError(updateTask, error)` (lines 565-580): UPDATEs the task's
row to `'failed'` with the error message.  The `git_commit_hash` column is
not touched. -/
def logUpdateError (log : List AuditRecord) (uid : Nat) (msg : String) :
    List AuditRecord :=
  log.map fun r =>
    if r.updateId = uid then
      { r with status := .failed, errorMessage := some msg }
    else r

/-- `processUpdate(updateTask)` (lines 284-339): mark in-progress, insert
the audit row, run the kind-specific routine; on success update the row to
completed, on error update it to failed and rethrow.  Returns the new log,
the task's terminal status, and the rethrown error message if any. -/
def processUpdate (log : List AuditRecord) (task : UpdateTask)
    (env : TaskEnv) (uid : Nat) :
    List AuditRecord × UpdateStatus × Option String :=
  let log1 := logUpdateStart log task uid
  match runUpdateRoutine env task with
  | .ok counts =>
      (logUpdateComplete log1 uid counts env.completeHash, .completed, none)
  | .error e =>
      (logUpdateError log1 uid e.message, .failed, some e.message)

/-- The drain loop of `processUpdateQueue` (lines 262-275) over an explicit
dequeue sequence: each dequeued task runs `processUpdate`; if that rethrows,
the catch block calls `logUpdateError` a second time on the same row, then
the loop continues with the next task. -/
def processQueueTasks (log : List AuditRecord) (uid : Nat) :
    List (UpdateTask × TaskEnv) → List AuditRecord
  | [] => log
  | (task, env) :: rest =>
      let out := processUpdate log task env uid
      let log2 := match out.2.2 with
        | some msg => logUpdateError out.1 uid msg
        | none => out.1
      processQueueTasks log2 (uid + 1) rest

/-- The single audit row a dequeued task ends with. -/
def recordFor (uid : Nat) (task : UpdateTask) (env : TaskEnv) : AuditRecord :=
  match runUpdateRoutine env task with
  | .ok counts =>
      { updateId := uid, sourceId := task.sourceId,
        updateType := task.source.type, status := .completed,
        recordsAdded := counts.recordsAdded,
        recordsModified := counts.recordsModified,
        hash := getCurrentGitHash env.completeHash, errorMessage := none }
  | .error e =>
      { updateId := uid, sourceId := task.sourceId,
        updateType := task.source.type, status := .failed,
        recordsAdded := 0, recordsModified := 0,
        hash := none, errorMessage := some e.message }

/-! ## The manager state machine (C3, C7)

`queueUpdate` / `processUpdateQueue` interleave with other asynchronous
callers only at `await` boundaries: JavaScript runs each synchronous slice
to completion.  The relevant synchronous slices are:

* `queueUpdate(source)` (lines 230-249): push + sort; if `isProcessing` is
  false it *synchronously* enters `processUpdateQueue` (no `await` on the
  call), which sets `isProcessing = true`, shifts the first task, and runs
  `processUpdate`'s synchronous prefix (status `in_progress`) before
  suspending at the first `await`.
* the drain loop resuming after a task's last `await`: it records the
  outcome, re-checks the `while` condition and either shifts the next task
  (marking it in-progress) or sets `isProcessing = false` and exits.

The state machine below has one transition per such slice (the resume slice
is split in two, which only adds interleavings — every real behaviour is
still a behaviour of the model).  `loops` holds one entry per drain loop
that passed the `isProcessing` guard and is still running; the entry is the
loop's current in-progress task, if any. -/

structure MgrState where
  queue : List UpdateTask
  isProcessing : Bool
  loops : List (Option UpdateTask)
  done : List (UpdateTask × Bool)
deriving DecidableEq, Repr

/-- The constructor state (lines 56-57): empty queue, not processing. -/
def initState : MgrState :=
  { queue := [], isProcessing := false, loops := [], done := [] }

/-- Number of tasks currently in status `in_progress`. -/
def inProgressCount (s : MgrState) : Nat :=
  (s.loops.filterMap id).length

/-- One interleaving step of the manager. -/
inductive MgrStep : MgrState → MgrState → Prop where
  /-- `queueUpdate` while a drain loop is active (lines 245-248): the
  `!this.isProcessing` guard fails, so only the push happens; no new
  drain loop starts. -/
  | enqueueBusy (s : MgrState) (t : UpdateTask)
      (h : s.isProcessing = true) :
      MgrStep s { s with queue := queuePush s.queue t }
  /-- `queueUpdate` while idle: the guard passes and
  `processUpdateQueue` starts a drain loop, which immediately shifts the
  new head and marks it in-progress. -/
  | enqueueIdle (s : MgrState) (t : UpdateTask)
      (h : s.isProcessing = false) :
      MgrStep s { queue := (queuePush s.queue t).tail,
                  isProcessing := true,
                  loops := s.loops ++ [(queuePush s.queue t).head?],
                  done := s.done }
  /-- A direct `processUpdateQueue()` call (line 472 or line 247) whose
  guard passes: `isProcessing` is false and the queue is non-empty. -/
  | drainCall (s : MgrState) (h : s.isProcessing = false)
      (hq : s.queue ≠ []) :
      MgrStep s { queue := s.queue.tail, isProcessing := true,
                  loops := s.loops ++ [s.queue.head?], done := s.done }
  /-- The drain loop's current task finishes (completed or failed; a
  failure is caught at lines 267-274 and does not abort the loop). -/
  | loopFinish (s : MgrState) (i : Nat) (t : UpdateTask) (ok : Bool)
      (h : s.loops.get? i = some (some t)) :
      MgrStep s { s with loops := s.loops.set i none,
                         done := s.done ++ [(t, ok)] }
  /-- The drain loop re-checks `while (queue.length > 0)` and shifts the
  next task, marking it in-progress (lines 262-263). -/
  | loopShift (s : MgrState) (i : Nat) (t : UpdateTask)
      (rest : List UpdateTask) (hl : s.loops.get? i = some none)
      (hq : s.queue = t :: rest) :
      MgrStep s { s with queue := rest, loops := s.loops.set i (some t) }
  /-- The drain loop finds the queue empty, sets `isProcessing = false`
  and exits (line 277). -/
  | loopExit (s : MgrState) (i : Nat) (hl : s.loops.get? i = some none)
      (hq : s.queue = []) :
      MgrStep s { s with loops := s.loops.eraseIdx i,
                         isProcessing := false }

/-- States reachable from the constructor state. -/
inductive MgrReachable : MgrState → Prop where
  | init : MgrReachable initState
  | step {s s' : MgrState} : MgrReachable s → MgrStep s s' → MgrReachable s'

/-- The invariant tying the `isProcessing` flag to the active loops. -/
def MgrInv (s : MgrState) : Prop :=
  s.loops.length ≤ 1 ∧ (s.isProcessing = true ↔ s.loops ≠ []) ∧
    (s.isProcessing = false → s.queue = [])

/-! ## Deterministic functions for the startup path (C7) -/

/-- The synchronous effect of one `queueUpdate(source)` call
(lines 230-249), as a function: the two `MgrStep` enqueue cases. -/
def queueUpdateStep (s : MgrState) (t : UpdateTask) : MgrState :=
  if s.isProcessing then { s with queue := queuePush s.queue t }
  else { queue := (queuePush s.queue t).tail, isProcessing := true,
         loops := s.loops ++ [(queuePush s.queue t).head?], done := s.done }

/-- The effect observable by a caller that `await`s `processUpdateQueue()`
(lines 254-257): when `isProcessing` is already true — or the queue is
empty — the guard returns immediately and the caller's await resolves
without waiting for the active drain loop; otherwise a drain loop starts
(and the caller would then drive it). -/
def processUpdateQueueCall (s : MgrState) : MgrState :=
  if s.isProcessing || s.queue.isEmpty then s
  else { queue := s.queue.tail, isProcessing := true,
         loops := s.loops ++ [s.queue.head?], done := s.done }

/-- `performInitialDataLoad()` (lines 458-474) up to the point where its
final `await` resolves and `initialize()` (lines 69-82) proceeds to
completion: if the store reports zero pokemon rows, every active source is
queued via `queueUpdate` (no `detectChanges` involved), then
`await this.processUpdateQueue()` runs.  Task ids are drawn from
`firstTaskId`, `firstTaskId + 1`, .... -/
def performInitialDataLoad (pokemonRowCount : Nat) (sources : List Source)
    (firstTaskId : Nat) (s : MgrState) : MgrState :=
  if pokemonRowCount = 0 then
    processUpdateQueueCall
      (((sources.filter fun src => src.isActive).enum).foldl
        (fun st p => queueUpdateStep st (mkUpdateTask (firstTaskId + p.1) p.2))
        s)
  else s

/-! ## The per-source scheduler (C9)

`scheduleSourceCheck(source)` (lines 119-133) arms a first timer of
60000 ms; each run of `checkSource` wraps `checkSourceForUpdates` in
`try/catch/finally`, and the `finally` re-arms the timer with the source's
`checkInterval` regardless of the outcome.  With checks modelled as
instantaneous (the spec's mocked clock), the n-th check fires at the time
computed below; `outcomes n` is whatever the n-th check's body did. -/

/-- The fixed startup grace delay (line 132): `setTimeout(checkSource, 60000)`. -/
def initialCheckDelay : Nat := 60000

/-- The `finally` block (lines 125-128): the next check is scheduled
`checkInterval` after this one, whether or not the body threw. -/
def checkSourceNext (interval : Nat) (fireTime : Nat)
    (outcome : Except UpdateError Unit) : Nat :=
  match outcome with
  | .ok _ => fireTime + interval
  | .error _ => fireTime + interval

/-- The firing time of the n-th detection check for a source. -/
def checkFireTime (interval : Nat)
    (outcomes : Nat → Except UpdateError Unit) : Nat → Nat
  | 0 => initialCheckDelay
  | n + 1 => checkSourceNext interval (checkFireTime interval outcomes n)
      (outcomes n)

/-! ## The event bus (C10)

`this.callbacks` (lines 58-63) is an object literal with exactly four own
keys; `on` and `triggerCallbacks` guard on `this.callbacks[event]` being
truthy (lines 591 and 597).  A JavaScript object literal inherits from
`Object.prototype`, so the bracket lookup is a prototype-chain lookup: for
a name such as `'toString'` it finds an inherited member — a truthy
function (or, for `'__proto__'`, the prototype object itself) that is not
an array — the guard passes, and the following `.push(...)` or
`.forEach(...)` call throws a `TypeError`.  Listeners are drawn from an
arbitrary type `κ`. -/

structure Callbacks (κ : Type) where
  onUpdateStart : List κ
  onUpdateComplete : List κ
  onUpdateError : List κ
  onDataChange : List κ

/-- The `TypeError` raised when a truthy inherited member is used as an
array; `member` is the array method the call site expected. -/
structure JsTypeError where
  member : String
deriving DecidableEq, Repr

/-- The members every object literal inherits from `Object.prototype`
(including the `__proto__` accessor): `this.callbacks[k]` is truthy, and
not an array, for each of these names. -/
def objectPrototypeMembers : List String :=
  ["constructor", "hasOwnProperty", "isPrototypeOf", "propertyIsEnumerable",
   "toLocaleString", "toString", "valueOf", "__defineGetter__",
   "__defineSetter__", "__lookupGetter__", "__lookupSetter__", "__proto__"]

/-- The value the prototype-chain lookup `this.callbacks[event]` finds. -/
inductive PropValue (κ : Type) where
  /-- An own key: the event's listener array (truthy). -/
  | arr (l : List κ)
  /-- An inherited `Object.prototype` member: truthy but not an array. -/
  | protoMember
  /-- Absent: `undefined`, falsy. -/
  | missing

/-- The lookup `this.callbacks[event]` (lines 591 and 597): the four own
keys first, then the `Object.prototype` members, else `undefined`. -/
def Callbacks.lookup {κ : Type} (c : Callbacks κ) (event : String) :
    PropValue κ :=
  if event = "onUpdateStart" then .arr c.onUpdateStart
  else if event = "onUpdateComplete" then .arr c.onUpdateComplete
  else if event = "onUpdateError" then .arr c.onUpdateError
  else if event = "onDataChange" then .arr c.onDataChange
  else if event ∈ objectPrototypeMembers then .protoMember
  else .missing

/-- `on(event, callback)` (lines 590-594): when `this.callbacks[event]` is
truthy, call `.push(callback)` on it — appending for the four own arrays
and throwing `TypeError` for an inherited prototype member; when it is
`undefined` the guard fails and nothing happens. -/
def Callbacks.on {κ : Type} (c : Callbacks κ) (event : String) (cb : κ) :
    Except JsTypeError (Callbacks κ) :=
  if event = "onUpdateStart" then
    .ok { c with onUpdateStart := c.onUpdateStart ++ [cb] }
  else if event = "onUpdateComplete" then
    .ok { c with onUpdateComplete := c.onUpdateComplete ++ [cb] }
  else if event = "onUpdateError" then
    .ok { c with onUpdateError := c.onUpdateError ++ [cb] }
  else if event = "onDataChange" then
    .ok { c with onDataChange := c.onDataChange ++ [cb] }
  else if event ∈ objectPrototypeMembers then .error { member := "push" }
  else .ok c

/-- `triggerCallbacks(event, data)` (lines 596-606): when
`this.callbacks[event]` is truthy, call `.forEach` on it — notifying each
listener (each inside its own try/catch, so throwing listeners are
contained) for the four own arrays, and throwing `TypeError` for an
inherited prototype member; an absent key notifies nobody. -/
def Callbacks.triggerCallbacks {κ : Type} (c : Callbacks κ) (event : String) :
    Except JsTypeError (List κ) :=
  match c.lookup event with
  | .arr l => .ok l
  | .protoMember => .error { member := "forEach" }
  | .missing => .ok []

/-! ## Claim C2 -/

/-- A store that already holds a completed audit row with a known hash. -/
def sampleCompletedLog : List AuditRecord :=
  [{ updateId := 0, sourceId := "pvpoke-gamemaster",
     updateType := "gamemaster", status := .completed, recordsAdded := 5,
     recordsModified := 3, hash := some "a1b2c3", errorMessage := none }]

/-! ## The audit trail produced by the drain loop -/

/-- The audit rows the drain loop leaves behind for a dequeue sequence,
one per task, with sequential update ids. -/
def withIds (uid : Nat) : List (UpdateTask × TaskEnv) → List AuditRecord
  | [] => []
  | (task, env) :: rest => recordFor uid task env :: withIds (uid + 1) rest

/-! ## Concrete tasks and environments used by witnesses -/

/-- A task for the gamemaster source. -/
def gmTaskC : UpdateTask := mkUpdateTask 0 pvpokeGamemaster

/-- A task for the rankings source. -/
def rankTaskC : UpdateTask := mkUpdateTask 0 pvpokeRankings

/-- A task for a tiers source. -/
def tierTaskC : UpdateTask := mkUpdateTask 0 pokemonResources

/-- An environment where every payload fetch fails with a `FetchError`
while the completion-time hash fetch succeeds. -/
def envAllFetchFail : TaskEnv :=
  { gmFetch := .error { message := "fetch failed" },
    rankFetch := fun _ => .error { message := "fetch failed" },
    tierFetch := .error { message := "fetch failed" },
    pokExists := fun _ => false, movExists := fun _ => false,
    rankingIsNew := fun _ => true, tierIsNew := fun _ => true,
    completeHash := .ok "deadbeef" }

/-! ## State-machine lemmas (C3) -/

/-- Termination measure for running the drain loop to completion. -/
def mgrMeasure (s : MgrState) : Nat :=
  2 * s.queue.length + (s.loops.filterMap id).length + s.loops.length

/-- The state after an enqueue on the idle manager (which starts the single
drain loop and puts the gamemaster task in flight) followed by an enqueue
that arrives while that loop is processing. -/
def demoBusyState : MgrState :=
  { queue := [mkUpdateTask 1 pokemonResources], isProcessing := true,
    loops := [some (mkUpdateTask 0 pvpokeGamemaster)], done := [] }

/-! ## Lemmas about the queue -/

theorem drainOrder_eq (q : List UpdateTask) : drainOrder q = q := by
  induction q with
  | nil => rfl
  | cons t rest ih => simp [drainOrder, ih]

theorem orderedInsert_of_forall {a : UpdateTask} {l : List UpdateTask}
    (h : ∀ x ∈ l, taskGE a x) : List.orderedInsert taskGE a l = a :: l := by
  cases l with
  | nil => rfl
  | cons b l =>
      exact List.orderedInsert_of_le taskGE l (h b (List.mem_cons_self b l))

theorem mem_stableInsert {x t : UpdateTask} {q : List UpdateTask} :
    x ∈ stableInsert q t ↔ x = t ∨ x ∈ q := by
  induction q with
  | nil => simp [stableInsert]
  | cons a q ih =>
      by_cases h : t.priority ≤ a.priority
      · rw [stableInsert, if_pos h, List.mem_cons, ih, List.mem_cons]
        tauto
      · rw [stableInsert, if_neg h, List.mem_cons, List.mem_cons]

theorem stableInsert_of_head_lt {t : UpdateTask} {q : List UpdateTask}
    (h : ∀ x ∈ q, x.priority < t.priority) : stableInsert q t = t :: q := by
  cases q with
  | nil => rfl
  | cons a q =>
      have ha : ¬ t.priority ≤ a.priority :=
        Nat.not_le_of_lt (h a (List.mem_cons_self a q))
      simp [stableInsert, ha]

theorem queuePush_eq_stableInsert (q : List UpdateTask) (t : UpdateTask)
    (hq : q.Pairwise taskGE) : queuePush q t = stableInsert q t := by
  induction q with
  | nil => rfl
  | cons a q ih =>
      rcases List.pairwise_cons.1 hq with ⟨ha, hq'⟩
      have step : queuePush (a :: q) t =
          List.orderedInsert taskGE a (queuePush q t) := rfl
      rw [step, ih hq']
      by_cases h : t.priority ≤ a.priority
      · have hall : ∀ x ∈ stableInsert q t, taskGE a x := by
          intro x hx
          rcases mem_stableInsert.1 hx with rfl | hxq
          · exact h
          · exact ha x hxq
        rw [orderedInsert_of_forall hall]
        simp [stableInsert, h]
      · have hlt : a.priority < t.priority := Nat.lt_of_not_le h
        have hqlt : ∀ x ∈ q, x.priority < t.priority := fun x hx =>
          Nat.lt_of_le_of_lt (ha x hx) hlt
        rw [stableInsert_of_head_lt hqlt]
        have : List.orderedInsert taskGE a (t :: q) =
            t :: List.orderedInsert taskGE a q := by
          simp only [List.orderedInsert]
          rw [if_neg]
          exact h
        rw [this, orderedInsert_of_forall ha]
        simp [stableInsert, h]

theorem stableInsert_pairwise {q : List UpdateTask} {t : UpdateTask}
    (hq : q.Pairwise taskGE) : (stableInsert q t).Pairwise taskGE := by
  induction q with
  | nil => simp [stableInsert, taskGE]
  | cons a q ih =>
      rcases List.pairwise_cons.1 hq with ⟨ha, hq'⟩
      by_cases h : t.priority ≤ a.priority
      · have : (a :: stableInsert q t).Pairwise taskGE := by
          refine List.pairwise_cons.2 ⟨?_, ih hq'⟩
          intro x hx
          rcases mem_stableInsert.1 hx with rfl | hxq
          · exact h
          · exact ha x hxq
        simpa [stableInsert, h] using this
      · have hlt : a.priority < t.priority := Nat.lt_of_not_le h
        have : (t :: a :: q).Pairwise taskGE := by
          refine List.pairwise_cons.2 ⟨?_, hq⟩
          intro x hx
          rcases List.mem_cons.1 hx with rfl | hxq
          · exact Nat.le_of_lt hlt
          · exact Nat.le_trans (ha x hxq) (Nat.le_of_lt hlt)
        simpa [stableInsert, h] using this

theorem filter_stableInsert (q : List UpdateTask) (t : UpdateTask) (p : Nat)
    (hq : q.Pairwise taskGE) :
    (stableInsert q t).filter (fun x => x.priority == p) =
      q.filter (fun x => x.priority == p) ++
        (if t.priority == p then [t] else []) := by
  induction q with
  | nil =>
      by_cases ht : t.priority == p <;> simp [stableInsert, ht]
  | cons a q ih =>
      rcases List.pairwise_cons.1 hq with ⟨ha, hq'⟩
      by_cases h : t.priority ≤ a.priority
      · by_cases hap : a.priority == p <;>
          simp [stableInsert, h, List.filter_cons, hap, ih hq']
      · have hlt : a.priority < t.priority := Nat.lt_of_not_le h
        by_cases ht : t.priority == p
        · have htp : t.priority = p := by simpa using ht
          have hnil : (a :: q).filter (fun x => x.priority == p) = [] := by
            rw [List.filter_eq_nil_iff]
            intro x hx
            have hxlt : x.priority < p := by
              rcases List.mem_cons.1 hx with rfl | hxq
              · omega
              · have hx2 := ha x hxq
                simp only [taskGE] at hx2
                omega
            simp only [beq_iff_eq]
            omega
          rw [stableInsert, if_neg h, List.filter_cons, hnil]
          simp [ht]
        · simp [stableInsert, h, ht, List.filter_cons]

theorem foldl_queuePush (ts : List UpdateTask) :
    ∀ q : List UpdateTask, q.Pairwise taskGE →
      ((ts.foldl queuePush q).Pairwise taskGE ∧
        ∀ p : Nat, (ts.foldl queuePush q).filter (fun x => x.priority == p) =
          q.filter (fun x => x.priority == p) ++
            ts.filter (fun x => x.priority == p)) := by
  induction ts with
  | nil => intro q hq; simp [hq]
  | cons t ts ih =>
      intro q hq
      have hstep : queuePush q t = stableInsert q t :=
        queuePush_eq_stableInsert q t hq
      have hsorted : (queuePush q t).Pairwise taskGE := by
        rw [hstep]; exact stableInsert_pairwise hq
      rcases ih (queuePush q t) hsorted with ⟨hs, hf⟩
      refine ⟨by simpa [List.foldl_cons] using hs, ?_⟩
      intro p
      have hmid := hf p
      rw [hstep] at hmid
      rw [filter_stableInsert q t p hq] at hmid
      rw [List.foldl_cons, hstep, hmid]
      by_cases ht : t.priority == p <;>
        simp [List.filter_cons, ht, List.append_assoc]

/-! ## Claim C1 -/

/-- C1: For every sequence of enqueue operations on the UpdateQueue, tasks
are dequeued (the drain loop `shift`s from the front, `drainOrder`) in
non-increasing priority order (`Pairwise taskGE`), and for every priority
the dequeued tasks of that priority are exactly the enqueued tasks of that
priority in their enqueue order (stable FIFO among ties). -/
theorem c1_queue_priority_fifo (ts : List UpdateTask) :
    (drainOrder (ts.foldl queuePush [])).Pairwise taskGE ∧
    ∀ p : Nat,
      (drainOrder (ts.foldl queuePush [])).filter (fun x => x.priority == p) =
        ts.filter (fun x => x.priority == p) := by
  rcases foldl_queuePush ts [] List.Pairwise.nil with ⟨hs, hf⟩
  rw [drainOrder_eq]
  exact ⟨hs, fun p => by simpa using hf p⟩

/-- C2 counterexample: when the remote resolver fails but a completed audit
row with a hash exists, `detectChanges` returns `true` — not `false` — and
the caller (`checkSourceForUpdates`) enqueues a task.  The claim that a
resolver failure yields `false` and enqueues nothing is refuted at this
input. -/
theorem c2_counterexample :
    detectChanges (.error { message := "network unreachable" })
      sampleCompletedLog pvpokeGamemaster = true ∧
    (checkSourceQueueEffect (.error { message := "network unreachable" })
      sampleCompletedLog [] pvpokeGamemaster 1).length = 1 := by
  constructor
  · decide
  · decide

/-- C2 amended: `getCurrentGitHash` swallows the `FetchError` and returns
`null`, so `detectChanges` under a resolver failure returns
`null !== lastKnownHash` — it is `true` exactly when a last known marker
exists (and the caller then enqueues a task), and `false` — with no task
enqueued and no state mutated (`detectChanges` itself never mutates) — only
when no completed audit row with a marker exists for the source. -/
theorem c2_detect_on_fetch_error (fe : FetchError) (log : List AuditRecord)
    (src : Source) :
    detectChanges (.error fe) log src = (getLastKnownHash log src.id).isSome ∧
    (getLastKnownHash log src.id = none →
      detectChanges (.error fe) log src = false ∧
      ∀ (q : List UpdateTask) (n : Nat),
        checkSourceQueueEffect (.error fe) log q src n = q) := by
  have hmain :
      detectChanges (.error fe) log src =
        (getLastKnownHash log src.id).isSome := by
    cases h : getLastKnownHash log src.id <;>
      (unfold detectChanges getCurrentGitHash; rw [h]) <;> rfl
  refine ⟨hmain, fun hnone => ⟨by simp [hmain, hnone], fun q n => ?_⟩⟩
  simp [checkSourceQueueEffect, hmain, hnone]

/-- Witness for `c2_detect_on_fetch_error` at an empty audit trail. -/
theorem c2_detect_on_fetch_error_w :
    detectChanges (.error { message := "x" }) [] pvpokeGamemaster = false ∧
    checkSourceQueueEffect (.error { message := "x" }) [] []
      pvpokeGamemaster 0 = [] :=
  ⟨((c2_detect_on_fetch_error { message := "x" } [] pvpokeGamemaster).2
      rfl).1,
   ((c2_detect_on_fetch_error { message := "x" } [] pvpokeGamemaster).2
      rfl).2 [] 0⟩

/-! ## Claim C8 -/

/-- C8 counterexample: the priority table also contains `'moves': 4`
(line 489), so the kind `"moves"` — a kind other than gamemaster, rankings
and tiers — does not get the default priority 1. -/
theorem c8_counterexample :
    getUpdatePriority "moves" = 4 ∧ getUpdatePriority "moves" ≠ 1 := by
  decide

/-- C8 amended: the task-priority function maps gamemaster to 10, rankings
to 8, tiers to 6, moves to 4, and every other kind to the default 1. -/
theorem c8_priority_map :
    getUpdatePriority "gamemaster" = 10 ∧ getUpdatePriority "rankings" = 8 ∧
    getUpdatePriority "tiers" = 6 ∧ getUpdatePriority "moves" = 4 ∧
    ∀ s : String, s ≠ "gamemaster" → s ≠ "rankings" → s ≠ "tiers" →
      s ≠ "moves" → getUpdatePriority s = 1 := by
  refine ⟨by decide, by decide, by decide, by decide, ?_⟩
  intro s h1 h2 h3 h4
  simp [getUpdatePriority, h1, h2, h3, h4]

/-- Witness for `c8_priority_map` at a kind outside the table. -/
theorem c8_priority_map_w : getUpdatePriority "effectiveness" = 1 :=
  c8_priority_map.2.2.2.2 "effectiveness" (by decide) (by decide) (by decide)
    (by decide)

/-! ## Claim C9 -/

theorem checkFireTime_closed (interval : Nat)
    (outcomes : Nat → Except UpdateError Unit) :
    ∀ n, checkFireTime interval outcomes n = 60000 + n * interval := by
  intro n
  induction n with
  | zero => simp [checkFireTime, initialCheckDelay]
  | succ n ih =>
      have hstep : checkFireTime interval outcomes (n + 1) =
          checkFireTime interval outcomes n + interval := by
        cases h : outcomes n <;>
          simp [checkFireTime, checkSourceNext, h]
      rw [hstep, ih]
      ring

/-- C9: the first detection check fires only after the fixed 60000 ms grace
delay (not at time 0), every later check fires exactly one `checkInterval`
after the previous one, for ever (`checkFireTime` is total in `n`), and the
schedule does not depend on the checks' outcomes — a failing check
(`outcomes n = .error _`) leaves every later firing time unchanged, because
the `finally` block re-arms the timer unconditionally. -/
theorem c9_schedule (interval : Nat)
    (outcomes : Nat → Except UpdateError Unit) :
    checkFireTime interval outcomes 0 = 60000 ∧
    0 < checkFireTime interval outcomes 0 ∧
    (∀ n, checkFireTime interval outcomes (n + 1) =
        checkFireTime interval outcomes n + interval) ∧
    (∀ (outcomes' : Nat → Except UpdateError Unit) (n : Nat),
        checkFireTime interval outcomes n =
          checkFireTime interval outcomes' n) ∧
    (∀ n, checkFireTime interval outcomes n = 60000 + n * interval) := by
  refine ⟨rfl, by simp [checkFireTime, initialCheckDelay], ?_, ?_,
    checkFireTime_closed interval outcomes⟩
  · intro n
    cases h : outcomes n <;> simp [checkFireTime, checkSourceNext, h]
  · intro outcomes' n
    rw [checkFireTime_closed, checkFireTime_closed]

/-! ## Claim C10 -/

/-- C10 counterexample: `"toString"` is outside the predefined event set,
yet `on('toString', cb)` is not a silent no-op: the prototype-chain lookup
finds the inherited truthy `Object.prototype.toString`, the guard passes,
and `.push` on a non-array throws `TypeError`; likewise
`triggerCallbacks('toString')` throws on `.forEach`. -/
theorem c10_counterexample :
    "toString" ∉ ["onUpdateStart", "onUpdateComplete", "onUpdateError",
      "onDataChange"] ∧
    Callbacks.on (⟨[], [], [], []⟩ : Callbacks Nat) "toString" 7 =
      .error { member := "push" } ∧
    Callbacks.triggerCallbacks (⟨[], [], [], []⟩ : Callbacks Nat)
      "toString" = .error { member := "forEach" } := by
  refine ⟨by decide, rfl, rfl⟩

/-- C10 amended: for an event name outside the predefined set, registration
and triggering are silent no-ops — the callback is never stored, nobody is
notified and no error is raised — exactly when the name is also not an
inherited `Object.prototype` member; for an inherited member name
(`toString`, `constructor`, `__proto__`, ...) the truthy prototype-chain
lookup passes the guard and the `.push` / `.forEach` call throws
`TypeError`. -/
theorem c10_unknown_event {κ : Type} (c : Callbacks κ) (event : String)
    (cb : κ)
    (h : event ∉ ["onUpdateStart", "onUpdateComplete", "onUpdateError",
        "onDataChange"]) :
    (event ∉ objectPrototypeMembers →
      c.on event cb = .ok c ∧ c.triggerCallbacks event = .ok []) ∧
    (event ∈ objectPrototypeMembers →
      c.on event cb = .error { member := "push" } ∧
      c.triggerCallbacks event = .error { member := "forEach" }) := by
  simp only [List.mem_cons, List.not_mem_nil, or_false] at h
  push_neg at h
  obtain ⟨h1, h2, h3, h4⟩ := h
  constructor
  · intro hp
    constructor
    · simp [Callbacks.on, h1, h2, h3, h4, hp]
    · simp [Callbacks.triggerCallbacks, Callbacks.lookup, h1, h2, h3, h4, hp]
  · intro hp
    constructor
    · simp [Callbacks.on, h1, h2, h3, h4, hp]
    · simp [Callbacks.triggerCallbacks, Callbacks.lookup, h1, h2, h3, h4, hp]

/-- Witness for `c10_unknown_event` on both branches: the absent name
`"onTaskDone"` and the inherited name `"valueOf"`. -/
theorem c10_unknown_event_w :
    (Callbacks.on (⟨[], [], [], []⟩ : Callbacks Nat) "onTaskDone" 7 =
        .ok ⟨[], [], [], []⟩ ∧
      Callbacks.triggerCallbacks (⟨[], [], [], []⟩ : Callbacks Nat)
        "onTaskDone" = .ok []) ∧
    (Callbacks.on (⟨[], [], [], []⟩ : Callbacks Nat) "valueOf" 7 =
        .error { member := "push" } ∧
      Callbacks.triggerCallbacks (⟨[], [], [], []⟩ : Callbacks Nat)
        "valueOf" = .error { member := "forEach" }) :=
  ⟨(c10_unknown_event ⟨[], [], [], []⟩ "onTaskDone" 7 (by decide)).1
      (by decide),
   (c10_unknown_event ⟨[], [], [], []⟩ "valueOf" 7 (by decide)).2
      (by decide)⟩

theorem map_update_id_of_fresh (log : List AuditRecord) (uid : Nat)
    (f : AuditRecord → AuditRecord)
    (h : ∀ r ∈ log, r.updateId ≠ uid) :
    (log.map fun r => if r.updateId = uid then f r else r) = log := by
  induction log with
  | nil => rfl
  | cons r rest ih =>
      rw [List.map_cons, if_neg (h r (List.mem_cons_self r rest)),
        ih fun x hx => h x (List.mem_cons_of_mem r hx)]

theorem recordFor_of_ok {task : UpdateTask} {env : TaskEnv}
    {c : UpdateCounts} (uid : Nat) (hr : runUpdateRoutine env task = .ok c) :
    recordFor uid task env =
      { updateId := uid, sourceId := task.sourceId,
        updateType := task.source.type, status := .completed,
        recordsAdded := c.recordsAdded,
        recordsModified := c.recordsModified,
        hash := getCurrentGitHash env.completeHash, errorMessage := none } := by
  unfold recordFor
  rw [hr]

theorem recordFor_of_error {task : UpdateTask} {env : TaskEnv}
    {e : UpdateError} (uid : Nat)
    (hr : runUpdateRoutine env task = .error e) :
    recordFor uid task env =
      { updateId := uid, sourceId := task.sourceId,
        updateType := task.source.type, status := .failed,
        recordsAdded := 0, recordsModified := 0,
        hash := none, errorMessage := some e.message } := by
  unfold recordFor
  rw [hr]

theorem recordFor_updateId (uid : Nat) (task : UpdateTask) (env : TaskEnv) :
    (recordFor uid task env).updateId = uid := by
  unfold recordFor
  cases hr : runUpdateRoutine env task <;> rfl

theorem recordFor_status (uid : Nat) (task : UpdateTask) (env : TaskEnv) :
    (recordFor uid task env).status = .completed ∨
      (recordFor uid task env).status = .failed := by
  unfold recordFor
  cases hr : runUpdateRoutine env task
  · right; rfl
  · left; rfl

theorem logUpdateComplete_logUpdateStart (log : List AuditRecord)
    (task : UpdateTask) (uid : Nat) (counts : UpdateCounts)
    (hf : Except FetchError String) (h : ∀ r ∈ log, r.updateId ≠ uid) :
    logUpdateComplete (logUpdateStart log task uid) uid counts hf =
      log ++ [{ updateId := uid, sourceId := task.sourceId,
                updateType := task.source.type, status := .completed,
                recordsAdded := counts.recordsAdded,
                recordsModified := counts.recordsModified,
                hash := getCurrentGitHash hf, errorMessage := none }] := by
  unfold logUpdateStart logUpdateComplete
  rw [List.map_append, map_update_id_of_fresh log uid _ h]
  simp

theorem logUpdateError_logUpdateStart (log : List AuditRecord)
    (task : UpdateTask) (uid : Nat) (msg : String)
    (h : ∀ r ∈ log, r.updateId ≠ uid) :
    logUpdateError (logUpdateStart log task uid) uid msg =
      log ++ [{ updateId := uid, sourceId := task.sourceId,
                updateType := task.source.type, status := .failed,
                recordsAdded := 0, recordsModified := 0,
                hash := none, errorMessage := some msg }] := by
  unfold logUpdateStart logUpdateError
  rw [List.map_append, map_update_id_of_fresh log uid _ h]
  simp

theorem logUpdateError_append_same (log : List AuditRecord)
    (r : AuditRecord) (uid : Nat) (msg : String)
    (h : ∀ x ∈ log, x.updateId ≠ uid) (hid : r.updateId = uid)
    (hs : r.status = .failed) (hm : r.errorMessage = some msg) :
    logUpdateError (log ++ [r]) uid msg = log ++ [r] := by
  unfold logUpdateError
  rw [List.map_append, map_update_id_of_fresh log uid _ h]
  have : (if r.updateId = uid then
      { r with status := .failed, errorMessage := some msg } else r) = r := by
    rw [if_pos hid]
    cases r
    simp_all
  simp [this]

theorem processQueueTasks_cons_log (log : List AuditRecord)
    (task : UpdateTask) (env : TaskEnv) (uid : Nat)
    (h : ∀ r ∈ log, r.updateId < uid)
    (rest : List (UpdateTask × TaskEnv)) :
    processQueueTasks log uid ((task, env) :: rest) =
      processQueueTasks (log ++ [recordFor uid task env]) (uid + 1) rest := by
  have hne : ∀ r ∈ log, r.updateId ≠ uid := fun r hr => Nat.ne_of_lt (h r hr)
  cases hr : runUpdateRoutine env task with
  | ok counts =>
      simp only [processQueueTasks, processUpdate, hr]
      rw [logUpdateComplete_logUpdateStart log task uid counts
        env.completeHash hne, recordFor_of_ok uid hr]
  | error e =>
      simp only [processQueueTasks, processUpdate, hr]
      rw [logUpdateError_logUpdateStart log task uid e.message hne]
      rw [logUpdateError_append_same log _ uid e.message hne rfl rfl rfl]
      rw [recordFor_of_error uid hr]

theorem withIds_updateId_mem (q : List (UpdateTask × TaskEnv)) :
    ∀ (uid : Nat) (r : AuditRecord), r ∈ withIds uid q →
      uid ≤ r.updateId ∧ r.updateId < uid + q.length := by
  induction q with
  | nil => intro uid r hr; cases hr
  | cons te rest ih =>
      intro uid r hr
      obtain ⟨task, env⟩ := te
      rcases List.mem_cons.1 hr with rfl | hmem
      · rw [recordFor_updateId]
        simp
      · rcases ih (uid + 1) r hmem with ⟨h1, h2⟩
        constructor
        · omega
        · simp only [List.length_cons]
          omega

theorem processQueueTasks_eq (q : List (UpdateTask × TaskEnv)) :
    ∀ (log : List AuditRecord) (uid : Nat),
      (∀ r ∈ log, r.updateId < uid) →
      processQueueTasks log uid q = log ++ withIds uid q := by
  induction q with
  | nil =>
      intro log uid _
      simp [processQueueTasks, withIds]
  | cons te rest ih =>
      intro log uid h
      obtain ⟨task, env⟩ := te
      rw [processQueueTasks_cons_log log task env uid h rest]
      have hfresh : ∀ r ∈ log ++ [recordFor uid task env],
          r.updateId < uid + 1 := by
        intro r hr
        rcases List.mem_append.1 hr with hmem | hmem
        · exact Nat.lt_succ_of_lt (h r hmem)
        · rcases List.mem_singleton.1 hmem with rfl
          rw [recordFor_updateId]
          omega
      rw [ih (log ++ [recordFor uid task env]) (uid + 1) hfresh]
      simp [withIds]

theorem withIds_map_updateId (q : List (UpdateTask × TaskEnv)) :
    ∀ uid : Nat,
      (withIds uid q).map (fun r => r.updateId) =
        List.range' uid q.length := by
  induction q with
  | nil => intro uid; rfl
  | cons te rest ih =>
      intro uid
      obtain ⟨task, env⟩ := te
      simp [withIds, recordFor_updateId, ih (uid + 1), List.range'_succ]

theorem withIds_status (q : List (UpdateTask × TaskEnv)) :
    ∀ (uid : Nat) (r : AuditRecord), r ∈ withIds uid q →
      r.status = .completed ∨ r.status = .failed := by
  induction q with
  | nil => intro uid r hr; cases hr
  | cons te rest ih =>
      intro uid r hr
      obtain ⟨task, env⟩ := te
      rcases List.mem_cons.1 hr with rfl | hmem
      · exact recordFor_status uid task env
      · exact ih (uid + 1) r hmem

theorem processQueueTasks_append (q1 q2 : List (UpdateTask × TaskEnv)) :
    ∀ (log : List AuditRecord) (uid : Nat),
      processQueueTasks log uid (q1 ++ q2) =
        processQueueTasks (processQueueTasks log uid q1)
          (uid + q1.length) q2 := by
  induction q1 with
  | nil => intro log uid; rfl
  | cons te q1 ih =>
      intro log uid
      obtain ⟨task, env⟩ := te
      simp only [List.cons_append, processQueueTasks, List.append_eq]
      rw [ih]
      congr 1
      simp [Nat.add_comm, Nat.add_assoc, Nat.add_left_comm]

/-! ## Last-known-marker lemmas -/

theorem getLastKnownHash_append_failed (log : List AuditRecord)
    (r : AuditRecord) (sid : String) (hs : r.status = .failed) :
    getLastKnownHash (log ++ [r]) sid = getLastKnownHash log sid := by
  unfold getLastKnownHash
  rw [List.filter_append]
  have hnil : List.filter
      (fun x => x.sourceId == sid && x.status == UpdateStatus.completed)
      [r] = [] := by
    simp [hs]
  rw [hnil, List.append_nil]

theorem getLastKnownHash_append_other (log : List AuditRecord)
    (r : AuditRecord) (sid : String) (hne : r.sourceId ≠ sid) :
    getLastKnownHash (log ++ [r]) sid = getLastKnownHash log sid := by
  unfold getLastKnownHash
  rw [List.filter_append]
  have hnil : List.filter
      (fun x => x.sourceId == sid && x.status == UpdateStatus.completed)
      [r] = [] := by
    simp [hne]
  rw [hnil, List.append_nil]

theorem getLastKnownHash_append_completed (log : List AuditRecord)
    (r : AuditRecord) (hs : r.status = .completed) :
    getLastKnownHash (log ++ [r]) r.sourceId = r.hash := by
  unfold getLastKnownHash
  rw [List.filter_append]
  have hone : List.filter
      (fun x => x.sourceId == r.sourceId && x.status == UpdateStatus.completed)
      [r] = [r] := by
    simp [hs]
  rw [hone, List.getLast?_concat]
  rfl

/-! ## Claim C4 -/

/-- C4: after draining any prefix of the dequeue sequence — that is, at the
instant the next task would be dequeued — the audit trail holds exactly one
row per already-dequeued task (the row ids are exactly `0, ..., k-1` in
dequeue order) and every row carries a terminal status (`completed` or
`failed`); no dequeued task is ever without a recorded outcome and no task
has two rows.  The third conjunct is the decomposition showing the state
after a prefix *is* the intermediate state of the full drain, so the k-th
task's terminal row is durably in the log before task k+1 is dequeued. -/
theorem c4_terminal_audit_before_next (q : List (UpdateTask × TaskEnv))
    (k : Nat) :
    ((processQueueTasks [] 0 (q.take k)).map (fun r => r.updateId) =
      List.range (min k q.length)) ∧
    (∀ r ∈ processQueueTasks [] 0 (q.take k),
      r.status = .completed ∨ r.status = .failed) ∧
    (∀ (log : List AuditRecord) (uid : Nat)
        (q1 q2 : List (UpdateTask × TaskEnv)),
      processQueueTasks log uid (q1 ++ q2) =
        processQueueTasks (processQueueTasks log uid q1)
          (uid + q1.length) q2) := by
  have hbase : ∀ r ∈ ([] : List AuditRecord), r.updateId < 0 := by
    intro r hr
    cases hr
  have heq := processQueueTasks_eq (q.take k) [] 0 hbase
  refine ⟨?_, ?_, fun log uid q1 q2 => processQueueTasks_append q1 q2 log uid⟩
  · rw [heq]
    simp only [List.nil_append]
    rw [withIds_map_updateId (q.take k) 0, List.length_take,
      List.range_eq_range']
  · intro r hr
    rw [heq] at hr
    simp only [List.nil_append] at hr
    exact withIds_status (q.take k) 0 r hr

/-! ## Claim C5 -/

/-- C5: extending a drain by one task: when the task's routine fails, the
last known marker of every source is unchanged (the `failed` row is
invisible to `getLastKnownHash`); when the routine succeeds, the task's
source marker becomes exactly the hash fetched for that task at completion
(`getCurrentGitHash env.completeHash`, the fetch `logUpdateComplete`
performs), and every other source's marker is unchanged.  The marker
advances only on a completed task of that source. -/
theorem c5_marker_advance (q : List (UpdateTask × TaskEnv))
    (task : UpdateTask) (env : TaskEnv) :
    (∀ e : UpdateError, runUpdateRoutine env task = .error e →
      ∀ sid : String,
        getLastKnownHash (processQueueTasks [] 0 (q ++ [(task, env)])) sid =
          getLastKnownHash (processQueueTasks [] 0 q) sid) ∧
    (∀ c : UpdateCounts, runUpdateRoutine env task = .ok c →
      getLastKnownHash (processQueueTasks [] 0 (q ++ [(task, env)]))
          task.sourceId = getCurrentGitHash env.completeHash ∧
      ∀ sid : String, sid ≠ task.sourceId →
        getLastKnownHash (processQueueTasks [] 0 (q ++ [(task, env)])) sid =
          getLastKnownHash (processQueueTasks [] 0 q) sid) := by
  have hbase : ∀ r ∈ ([] : List AuditRecord), r.updateId < 0 := by
    intro r hr
    cases hr
  have hfresh : ∀ r ∈ processQueueTasks [] 0 q,
      r.updateId < 0 + q.length := by
    intro r hr
    rw [processQueueTasks_eq q [] 0 hbase, List.nil_append] at hr
    exact (withIds_updateId_mem q 0 r hr).2
  have hsplit : processQueueTasks [] 0 (q ++ [(task, env)]) =
      processQueueTasks [] 0 q ++
        [recordFor (0 + q.length) task env] := by
    rw [processQueueTasks_append q [(task, env)] [] 0]
    rw [processQueueTasks_cons_log _ task env _ hfresh []]
    rfl
  constructor
  · intro e he sid
    rw [hsplit, recordFor_of_error (0 + q.length) he]
    exact getLastKnownHash_append_failed _ _ sid rfl
  · intro c hc
    constructor
    · rw [hsplit, recordFor_of_ok (0 + q.length) hc]
      exact getLastKnownHash_append_completed _ _ rfl
    · intro sid hne
      rw [hsplit, recordFor_of_ok (0 + q.length) hc]
      exact getLastKnownHash_append_other _ _ sid fun h => hne h.symm

/-- Witness for `c5_marker_advance`: a completed tiers task sets the
marker to the completion-time hash; a failed gamemaster task leaves the
(empty) marker unchanged. -/
theorem c5_marker_advance_w :
    getLastKnownHash (processQueueTasks [] 0 [(tierTaskC, envAllFetchFail)])
        tierTaskC.sourceId = getCurrentGitHash envAllFetchFail.completeHash ∧
    getLastKnownHash (processQueueTasks [] 0 [(gmTaskC, envAllFetchFail)])
        "pvpoke-gamemaster" =
      getLastKnownHash (processQueueTasks [] 0 []) "pvpoke-gamemaster" :=
  ⟨((c5_marker_advance [] tierTaskC envAllFetchFail).2
      { recordsAdded := 0, recordsModified := 0 } rfl).1,
   (c5_marker_advance [] gmTaskC envAllFetchFail).1
      { message := "Failed to load GameMaster data" } rfl "pvpoke-gamemaster"⟩

/-! ## Claim C6 -/

/-- C6 counterexample: a tiers task whose payload fetch raises `FetchError`
is recorded `completed` with zero counts — not `Failed` — and the source's
marker is even updated to the completion-time hash.  The claim that a
payload-fetch failure fails the task "for every source kind" is refuted at
this input. -/
theorem c6_counterexample :
    (processQueueTasks [] 0 [(tierTaskC, envAllFetchFail)]).map
        (fun r => r.status) = [UpdateStatus.completed] ∧
    UpdateStatus.completed ≠ UpdateStatus.failed ∧
    getLastKnownHash (processQueueTasks [] 0 [(tierTaskC, envAllFetchFail)])
        "pokemon-resources" = some "deadbeef" := by
  refine ⟨by decide, by decide, by decide⟩

/-- C6 amended: a payload-fetch failure fails the task only for the
gamemaster kind — the task is recorded `failed` with the non-empty message
`'Failed to load GameMaster data'`, the marker of every source is unchanged,
and the drain proceeds with the remaining tasks.  For the tiers kind (and
for the rankings kind when every file fetch fails) the `if (data)` guards
silently skip the missing payload and the routine returns `ok` with zero
counts, so the task completes instead. -/
theorem c6_fetch_failure_by_kind :
    (∀ (task : UpdateTask) (env : TaskEnv) (fe : FetchError)
        (log : List AuditRecord) (uid : Nat),
      task.source.type = "gamemaster" → env.gmFetch = .error fe →
      (∀ r ∈ log, r.updateId < uid) →
      (runUpdateRoutine env task =
        .error { message := "Failed to load GameMaster data" }) ∧
      (∀ rest, processQueueTasks log uid ((task, env) :: rest) =
        processQueueTasks
          (log ++ [{ updateId := uid, sourceId := task.sourceId,
                     updateType := task.source.type, status := .failed,
                     recordsAdded := 0, recordsModified := 0, hash := none,
                     errorMessage :=
                       some "Failed to load GameMaster data" }])
          (uid + 1) rest) ∧
      ("Failed to load GameMaster data" ≠ "") ∧
      (∀ sid, getLastKnownHash
          (log ++ [{ updateId := uid, sourceId := task.sourceId,
                     updateType := task.source.type, status := .failed,
                     recordsAdded := 0, recordsModified := 0, hash := none,
                     errorMessage :=
                       some "Failed to load GameMaster data" }]) sid =
        getLastKnownHash log sid)) ∧
    (∀ (task : UpdateTask) (env : TaskEnv) (fe : FetchError),
      task.source.type = "tiers" → env.tierFetch = .error fe →
      runUpdateRoutine env task =
        .ok { recordsAdded := 0, recordsModified := 0 }) ∧
    (∀ (task : UpdateTask) (env : TaskEnv) (fe : FetchError),
      task.source.type = "rankings" →
      (∀ p, env.rankFetch p = .error fe) →
      runUpdateRoutine env task =
        .ok { recordsAdded := 0, recordsModified := 0 }) := by
  refine ⟨?_, ?_, ?_⟩
  · intro task env fe log uid htype hgm hfr
    have hroutine : runUpdateRoutine env task =
        .error { message := "Failed to load GameMaster data" } := by
      unfold runUpdateRoutine
      rw [htype, hgm]
      rfl
    refine ⟨hroutine, ?_, by decide, ?_⟩
    · intro rest
      rw [processQueueTasks_cons_log log task env uid hfr rest,
        recordFor_of_error uid hroutine]
    · intro sid
      exact getLastKnownHash_append_failed log _ sid rfl
  · intro task env fe htype htier
    unfold runUpdateRoutine
    rw [htype, htier]
    rfl
  · intro task env fe htype hrank
    unfold runUpdateRoutine
    rw [htype]
    show updateRankings (fun p => env.rankFetch p) env.rankingIsNew =
      .ok { recordsAdded := 0, recordsModified := 0 }
    simp [updateRankings, leagues, scenarios, hrank, loadJsonFile]

/-- Witness for `c6_fetch_failure_by_kind` at each source kind. -/
theorem c6_fetch_failure_by_kind_w :
    runUpdateRoutine envAllFetchFail gmTaskC =
      .error { message := "Failed to load GameMaster data" } ∧
    runUpdateRoutine envAllFetchFail tierTaskC =
      .ok { recordsAdded := 0, recordsModified := 0 } ∧
    runUpdateRoutine envAllFetchFail rankTaskC =
      .ok { recordsAdded := 0, recordsModified := 0 } :=
  ⟨(c6_fetch_failure_by_kind.1 gmTaskC envAllFetchFail
      { message := "fetch failed" } [] 0 rfl rfl
      (fun r hr => absurd hr (List.not_mem_nil r))).1,
   c6_fetch_failure_by_kind.2.1 tierTaskC envAllFetchFail
      { message := "fetch failed" } rfl rfl,
   c6_fetch_failure_by_kind.2.2 rankTaskC envAllFetchFail
      { message := "fetch failed" } rfl (fun _ => rfl)⟩

theorem mgrInv_init : MgrInv initState := by
  refine ⟨by decide, by decide, by decide⟩

theorem mgrInv_step {s s' : MgrState} (hinv : MgrInv s)
    (hstep : MgrStep s s') : MgrInv s' := by
  obtain ⟨hlen, hiff, hqe⟩ := hinv
  cases hstep with
  | enqueueBusy t h =>
      refine ⟨hlen, hiff, ?_⟩
      intro hf
      rw [h] at hf
      cases hf
  | enqueueIdle t h =>
      have hl : s.loops = [] := by
        by_contra hne
        have := hiff.2 hne
        rw [h] at this
        cases this
      refine ⟨by simp [hl], by simp, by intro hf; cases hf⟩
  | drainCall h hq =>
      exact absurd (hqe h) hq
  | loopFinish i t ok hget =>
      have hne2 : s.loops.set i none ≠ [] := by
        intro hcon
        have hlen0 : s.loops.length = 0 := by
          have h2 := congrArg List.length hcon
          simpa [List.length_set] using h2
        have hnil : s.loops = [] := List.length_eq_zero.1 hlen0
        rw [hnil] at hget
        cases hget
      refine ⟨by simpa [List.length_set] using hlen, ?_, by simpa using hqe⟩
      constructor
      · intro hp
        exact fun _ => absurd (hiff.1 hp) (by simp_all)
      · intro _
        apply hiff.2
        intro hcon
        rw [hcon] at hget
        cases hget
  | loopShift i t rest hl hq =>
      have hlne : s.loops ≠ [] := by
        intro hcon
        rw [hcon] at hl
        cases hl
      have hne2 : s.loops.set i (some t) ≠ [] := by
        intro hcon
        have := congrArg List.length hcon
        rw [List.length_set] at this
        exact hlne (List.length_eq_zero.1 this)
      refine ⟨by simpa [List.length_set] using hlen, ?_, ?_⟩
      · simp only []
        constructor
        · intro _ hcon
          exact hne2 hcon
        · intro _
          exact hiff.2 hlne
      · intro hf
        exact absurd (hiff.2 hlne) (by simp_all)
  | loopExit i hl hq =>
      refine ⟨?_, ?_, fun _ => hq⟩
      · calc (s.loops.eraseIdx i).length ≤ s.loops.length :=
            List.length_eraseIdx_le s.loops i
          _ ≤ 1 := hlen
      · constructor
        · intro hcon
          cases hcon
        · intro hcon
          exfalso
          cases hc : s.loops with
          | nil =>
              rw [hc] at hl
              cases hl
          | cons a l =>
              have hl0 : l = [] := by
                have h2 := hlen
                rw [hc] at h2
                simp only [List.length_cons] at h2
                exact List.length_eq_zero.1
                  (Nat.le_zero.1 (Nat.le_of_succ_le_succ h2))
              subst hl0
              have hi0 : i = 0 := by
                cases i with
                | zero => rfl
                | succ j =>
                    rw [hc] at hl
                    simp [List.get?] at hl
              subst hi0
              rw [hc] at hcon
              simp [List.eraseIdx] at hcon

theorem mgrReachable_inv {s : MgrState} (h : MgrReachable s) : MgrInv s := by
  induction h with
  | init => exact mgrInv_init
  | step hr hs ih => exact mgrInv_step ih hs

theorem inProgressCount_le_of_inv {s : MgrState} (h : MgrInv s) :
    inProgressCount s ≤ 1 :=
  Nat.le_trans (List.length_filterMap_le id s.loops) h.1

theorem mgrStep_done_mono {s s' : MgrState} (h : MgrStep s s') :
    ∀ x ∈ s.done, x ∈ s'.done := by
  cases h with
  | enqueueBusy t hp => exact fun x hx => hx
  | enqueueIdle t hp => exact fun x hx => hx
  | drainCall hp hq => exact fun x hx => hx
  | loopFinish i t ok hget => exact fun x hx => List.mem_append_left _ hx
  | loopShift i t rest hl hq => exact fun x hx => hx
  | loopExit i hl hq => exact fun x hx => hx

theorem mgrSteps_done_mono {s s' : MgrState}
    (h : Relation.ReflTransGen MgrStep s s') : ∀ x ∈ s.done, x ∈ s'.done := by
  induction h with
  | refl => exact fun x hx => hx
  | tail hab hbc ih => exact fun x hx => mgrStep_done_mono hbc x (ih x hx)

theorem mgr_drain_exists :
    ∀ (n : Nat) (s : MgrState), mgrMeasure s ≤ n → MgrInv s →
    ∃ s', Relation.ReflTransGen MgrStep s s' ∧ s'.loops = [] ∧
      s'.queue = [] ∧ (∀ t ∈ s.queue, ∃ ok, (t, ok) ∈ s'.done) ∧
      (∀ t : UpdateTask, some t ∈ s.loops → ∃ ok, (t, ok) ∈ s'.done) := by
  intro n
  induction n with
  | zero =>
      intro s hm hinv
      have hloops : s.loops = [] := by
        have : s.loops.length = 0 := by
          unfold mgrMeasure at hm
          omega
        exact List.length_eq_zero.1 this
      have hq : s.queue = [] := by
        have : s.queue.length = 0 := by
          unfold mgrMeasure at hm
          omega
        exact List.length_eq_zero.1 this
      refine ⟨s, Relation.ReflTransGen.refl, hloops, hq, ?_, ?_⟩
      · intro t ht
        rw [hq] at ht
        cases ht
      · intro t ht
        rw [hloops] at ht
        cases ht
  | succ n ih =>
      intro s hm hinv
      obtain ⟨hlen, hiff, hqe⟩ := hinv
      cases hcase : s.loops with
      | nil =>
          have hp : s.isProcessing = false := by
            cases hp2 : s.isProcessing
            · rfl
            · exact absurd (hiff.1 hp2) (by rw [hcase]; simp)
          have hq : s.queue = [] := hqe hp
          refine ⟨s, Relation.ReflTransGen.refl, hcase, hq, ?_, ?_⟩
          · intro t ht
            rw [hq] at ht
            cases ht
          · intro t ht
            cases ht
      | cons a rest =>
          cases a with
          | some t =>
              have hget : s.loops.get? 0 = some (some t) := by
                rw [hcase]
                rfl
              have hstep : MgrStep s
                  { s with loops := s.loops.set 0 none,
                           done := s.done ++ [(t, true)] } :=
                MgrStep.loopFinish s 0 t true hget
              have hinv2 : MgrInv
                  { s with loops := s.loops.set 0 none,
                           done := s.done ++ [(t, true)] } :=
                mgrInv_step ⟨hlen, hiff, hqe⟩ hstep
              have hm2 : mgrMeasure
                  { s with loops := s.loops.set 0 none,
                           done := s.done ++ [(t, true)] } ≤ n := by
                simp [mgrMeasure, hcase] at hm ⊢
                omega
              obtain ⟨s', hsteps, hl', hq', hmemq, hmeml⟩ :=
                ih _ hm2 hinv2
              refine ⟨s', Relation.ReflTransGen.head hstep hsteps, hl', hq',
                ?_, ?_⟩
              · intro u hu
                exact hmemq u hu
              · intro u hu
                rcases List.mem_cons.1 hu with heq | hmem
                · have hut : u = t := by injection heq
                  rw [hut]
                  exact ⟨true, mgrSteps_done_mono hsteps (t, true)
                    (List.mem_append_right _ (List.mem_singleton.2 rfl))⟩
                · apply hmeml
                  rw [hcase, List.set_cons_zero]
                  exact List.mem_cons_of_mem none hmem
          | none =>
              cases hqcase : s.queue with
              | cons t qrest =>
                  have hget : s.loops.get? 0 = some none := by
                    rw [hcase]
                    rfl
                  have hstep : MgrStep s
                      { s with queue := qrest,
                               loops := s.loops.set 0 (some t) } :=
                    MgrStep.loopShift s 0 t qrest hget hqcase
                  have hinv2 : MgrInv
                      { s with queue := qrest,
                               loops := s.loops.set 0 (some t) } :=
                    mgrInv_step ⟨hlen, hiff, hqe⟩ hstep
                  have hm2 : mgrMeasure
                      { s with queue := qrest,
                               loops := s.loops.set 0 (some t) } ≤ n := by
                    simp [mgrMeasure, hcase, hqcase] at hm ⊢
                    omega
                  obtain ⟨s', hsteps, hl', hq', hmemq, hmeml⟩ :=
                    ih _ hm2 hinv2
                  refine ⟨s', Relation.ReflTransGen.head hstep hsteps, hl',
                    hq', ?_, ?_⟩
                  · intro u hu
                    rcases List.mem_cons.1 hu with rfl | hmem
                    · apply hmeml
                      rw [hcase, List.set_cons_zero]
                      exact List.mem_cons_self (some u) rest
                    · exact hmemq u hmem
                  · intro u hu
                    rcases List.mem_cons.1 hu with heq | hmem
                    · cases heq
                    · apply hmeml
                      rw [hcase, List.set_cons_zero]
                      exact List.mem_cons_of_mem (some t) hmem
              | nil =>
                  have hget : s.loops.get? 0 = some none := by
                    rw [hcase]
                    rfl
                  have hstep : MgrStep s
                      { s with loops := s.loops.eraseIdx 0,
                               isProcessing := false } :=
                    MgrStep.loopExit s 0 hget hqcase
                  have hinv2 : MgrInv
                      { s with loops := s.loops.eraseIdx 0,
                               isProcessing := false } :=
                    mgrInv_step ⟨hlen, hiff, hqe⟩ hstep
                  have hm2 : mgrMeasure
                      { s with loops := s.loops.eraseIdx 0,
                               isProcessing := false } ≤ n := by
                    simp [mgrMeasure, hcase, hqcase] at hm ⊢
                    omega
                  obtain ⟨s', hsteps, hl', hq', hmemq, hmeml⟩ :=
                    ih _ hm2 hinv2
                  refine ⟨s', Relation.ReflTransGen.head hstep hsteps, hl',
                    hq', ?_, ?_⟩
                  · intro u hu
                    cases hu
                  · intro u hu
                    rcases List.mem_cons.1 hu with heq | hmem
                    · cases heq
                    · apply hmeml
                      rw [hcase, List.eraseIdx_cons_zero]
                      exact hmem

/-! ## Claim C3 -/

/-- C3: in every reachable manager state, at most one task is in status
in-progress and at most one drain loop is active — an enqueue arriving
while `isProcessing` is true only pushes (the `MgrStep.enqueueBusy` case
adds no loop), so a second concurrent drain loop never starts; and from any
reachable state the single active loop can run to completion, terminally
processing every task in the queue and the in-flight task (so tasks added
during the drain are processed by that same loop). -/
theorem c3_single_drain_loop :
    (∀ s : MgrState, MgrReachable s →
      inProgressCount s ≤ 1 ∧ s.loops.length ≤ 1) ∧
    (∀ s : MgrState, MgrReachable s →
      ∃ s', Relation.ReflTransGen MgrStep s s' ∧ s'.loops = [] ∧
        s'.queue = [] ∧ (∀ t ∈ s.queue, ∃ ok, (t, ok) ∈ s'.done) ∧
        (∀ t : UpdateTask, some t ∈ s.loops →
          ∃ ok, (t, ok) ∈ s'.done)) := by
  constructor
  · intro s hr
    have hinv := mgrReachable_inv hr
    exact ⟨inProgressCount_le_of_inv hinv, hinv.1⟩
  · intro s hr
    exact mgr_drain_exists (mgrMeasure s) s (Nat.le_refl _)
      (mgrReachable_inv hr)

/-- Witness for `c3_single_drain_loop` at a concretely reached state. -/
theorem c3_single_drain_loop_w :
    inProgressCount demoBusyState ≤ 1 ∧ demoBusyState.loops.length ≤ 1 := by
  have h1 : MgrStep initState
      { queue := (queuePush initState.queue (mkUpdateTask 0 pvpokeGamemaster)).tail,
        isProcessing := true,
        loops := initState.loops ++
          [(queuePush initState.queue (mkUpdateTask 0 pvpokeGamemaster)).head?],
        done := initState.done } :=
    MgrStep.enqueueIdle initState (mkUpdateTask 0 pvpokeGamemaster) rfl
  have hr1 : MgrReachable
      { queue := (queuePush initState.queue (mkUpdateTask 0 pvpokeGamemaster)).tail,
        isProcessing := true,
        loops := initState.loops ++
          [(queuePush initState.queue (mkUpdateTask 0 pvpokeGamemaster)).head?],
        done := initState.done } :=
    MgrReachable.step MgrReachable.init h1
  have h2 : MgrStep
      { queue := (queuePush initState.queue (mkUpdateTask 0 pvpokeGamemaster)).tail,
        isProcessing := true,
        loops := initState.loops ++
          [(queuePush initState.queue (mkUpdateTask 0 pvpokeGamemaster)).head?],
        done := initState.done }
      demoBusyState := by
    have := MgrStep.enqueueBusy
      { queue := (queuePush initState.queue (mkUpdateTask 0 pvpokeGamemaster)).tail,
        isProcessing := true,
        loops := initState.loops ++
          [(queuePush initState.queue (mkUpdateTask 0 pvpokeGamemaster)).head?],
        done := initState.done } (mkUpdateTask 1 pokemonResources) rfl
    exact this
  exact c3_single_drain_loop.1 demoBusyState (MgrReachable.step hr1 h2)

/-! ## Claim C7 -/

/-- C7 evidence: with an empty store (zero pokemon rows) and the four
configured active sources, at the moment `initialize()` completes —
`performInitialDataLoad`'s final `await this.processUpdateQueue()` has
resolved through the `isProcessing` guard — all four active sources were
enqueued unconditionally (no ChangeDetector), but the queue is NOT drained:
the gamemaster task is merely in flight and the other three tasks are still
queued with nothing processed.  The awaited `processUpdateQueue()` returned
immediately because the first `queueUpdate` had already fire-and-forgotten
a drain loop and set `isProcessing`. -/
theorem c7_init_completes_before_drain :
    (performInitialDataLoad 0 updateSources 0 initState).queue.length = 3 ∧
    (performInitialDataLoad 0 updateSources 0 initState).queue ≠ [] ∧
    (performInitialDataLoad 0 updateSources 0 initState).loops =
      [some (mkUpdateTask 0 pvpokeGamemaster)] ∧
    (performInitialDataLoad 0 updateSources 0 initState).done = [] ∧
    (performInitialDataLoad 0 updateSources 0 initState).queue.map
        (fun t => t.sourceId) =
      ["pvpoke-rankings", "pokemon-resources", "dialgadex-data"] ∧
    (performInitialDataLoad 0 updateSources 0 initState).queue.map
        (fun t => t.priority) = [8, 6, 6] := by
  refine ⟨by decide, by decide, by decide, by decide, by decide, by decide⟩

/-- Witness for `c4_terminal_audit_before_next` on a one-task drain. -/
theorem c4_terminal_audit_before_next_w :
    ((processQueueTasks [] 0
        ([(tierTaskC, envAllFetchFail)].take 1)).map (fun r => r.updateId) =
      List.range (min 1 [(tierTaskC, envAllFetchFail)].length)) ∧
    ((recordFor 0 tierTaskC envAllFetchFail).status = .completed ∨
      (recordFor 0 tierTaskC envAllFetchFail).status = .failed) :=
  ⟨(c4_terminal_audit_before_next [(tierTaskC, envAllFetchFail)] 1).1,
   (c4_terminal_audit_before_next [(tierTaskC, envAllFetchFail)] 1).2.1
     (recordFor 0 tierTaskC envAllFetchFail) (by decide)⟩
